import Mathlib

/-!
Verification of the py-chess repository against its natural-language
specification.

The development shallowly embeds the parts of the code the claims are
about:

* `src/state.py` — the in-process publish/subscribe layer
  (`GameChannel`, `GameBroadcaster`),
* `src/chess/service.py` — `ChessService`, a wrapper around the
  python-chess rules library (the library itself is an external
  collaborator; its move parsing, legality checking, move application
  and outcome detection are modelled concretely below),
* `src/chess/render.py` — `render_board_html`,
* `src/database/models/game.py` — the `Game` / `Position` / `Move`
  records and the `record_move`, `complete_game`, `get_current_fen`
  operations, with the database modelled as in-memory lists of rows and
  `commit` made explicit,
* `src/server/api/v0/games/move.py` — the move submission pipeline,
* `src/server/api/v0/games/stream.py` — the per-event step of a
  streaming viewer session.

Stateful code is embedded as explicit state passing; the temporal
ordering of commit and broadcast is captured by an explicit action
trace emitted by the pipeline.
-/

set_option autoImplicit false

namespace PyChess

/-! ## Game channel (src/state.py, class GameChannel)

A subscriber queue is identified by a natural number; the channel state
holds the subscriber set (as a duplicate-free list, modelling a Python
`set`), the contents of every queue, and a counter supplying fresh
queue identities (modelling that `Queue()` always allocates a fresh
object).

`queue.put` on an unbounded asyncio queue is abstracted as an enqueue
that the environment may make fail (consumer gone); the `failing`
predicate says which queues fail.  The `try`/`except` of
`GameChannel.broadcast` is embedded directly: a failing enqueue leads
to `discard` instead of propagating, so the broadcast function is total
(it never raises by construction).
-/

/-- An SSE event as placed on a subscriber queue:
`{"event": event_type, "data": event_data}`. -/
abbrev Event := String × String

/-- State of one `GameChannel`, plus a fresh-queue counter. -/
structure ChannelState where
  subscribers : List Nat
  queues : Nat → List Event
  nextId : Nat

/-- `GameChannel.subscribe`: create a new (empty, fresh) queue, add it
to the subscriber set, return it. -/
def chanSubscribe (st : ChannelState) : ChannelState × Nat :=
  let q := st.nextId
  (⟨st.subscribers ++ [q], fun r => if r = q then [] else st.queues r, q + 1⟩, q)

/-- `GameChannel.unsubscribe`: `self.subscribers.discard(queue)`. -/
def chanUnsubscribe (st : ChannelState) (q : Nat) : ChannelState :=
  { st with subscribers := st.subscribers.filter (fun r => r != q) }

/-- The loop body of `GameChannel.broadcast`: iterate over a snapshot
of the subscriber set; enqueue onto each queue; on failure, discard the
queue from the live subscriber set and continue. -/
def chanBroadcastAux (failing : Nat → Bool) (ev : Event) :
    List Nat → ChannelState → ChannelState
  | [], st => st
  | q :: rest, st =>
    if failing q then
      chanBroadcastAux failing ev rest
        { st with subscribers := st.subscribers.filter (fun r => r != q) }
    else
      chanBroadcastAux failing ev rest
        { st with queues := fun r => if r = q then st.queues r ++ [ev] else st.queues r }

/-- `GameChannel.broadcast`: `for queue in list(self.subscribers): try:
await queue.put({...}) except Exception: self.subscribers.discard(queue)`. -/
def chanBroadcast (failing : Nat → Bool) (ev : Event) (st : ChannelState) : ChannelState :=
  chanBroadcastAux failing ev st.subscribers st

/-! ## Chess rules library (external collaborator)

`src/chess/service.py` delegates move parsing, legality, application
and outcome detection to the python-chess library.  The library is an
external collaborator of the repository; the following is a concrete
executable model of the slice of its interface the service uses:
`Board(fen)`, `Move.from_uci`, `board.legal_moves`, `board.push`,
`board.fen()`, `board.outcome()`, `board.turn`.

Squares are numbered as in python-chess: `square = file + 8 * rank`,
`a1 = 0`, `h8 = 63`. -/

inductive PKind where
  | pawn | knight | bishop | rook | queen | king
deriving DecidableEq

structure Piece where
  kind : PKind
  white : Bool
deriving DecidableEq

/-- A chess position: piece placement (index 0 = a1 … 63 = h8), side to
move, castling rights, en passant target square, halfmove clock and
fullmove number. -/
structure Board where
  pieces : List (Option Piece)
  turnWhite : Bool
  castleWK : Bool
  castleWQ : Bool
  castleBK : Bool
  castleBQ : Bool
  ep : Option Nat
  halfmove : Nat
  fullmove : Nat
deriving DecidableEq

/-- A move in coordinate form, as python-chess `Move`: origin square,
destination square, optional promotion piece kind. -/
structure CMove where
  src : Nat
  dst : Nat
  promo : Option PKind
deriving DecidableEq

def pieceAt (b : Board) (sq : Nat) : Option Piece := b.pieces.getD sq none

def fileOf (sq : Nat) : Nat := sq % 8

def rankOf (sq : Nat) : Nat := sq / 8

def inBoard (f r : Int) : Bool := 0 ≤ f && f < 8 && 0 ≤ r && r < 8

/-- Square at integer coordinates, assuming `inBoard`. -/
def sqAt (f r : Int) : Nat := (f + 8 * r).toNat

def mkSq (f r : Int) : Option Nat := if inBoard f r then some (sqAt f r) else none

/-! ### FEN parsing (python-chess `Board(fen)` / `set_fen`)

python-chess accepts a FEN with trailing fields omitted (defaults:
white to move, castling `-`, no en passant, clocks `0 1`) and raises
`ValueError` on a malformed board field, turn, castling, en passant or
clock field, or on more than six fields.  The model returns `none`
where the library raises.  (Chess960 castling-file letters and the
promoted-piece marker `~` are not modelled.) -/

def pieceOfChar : Char → Option Piece
  | 'P' => some ⟨.pawn, true⟩
  | 'N' => some ⟨.knight, true⟩
  | 'B' => some ⟨.bishop, true⟩
  | 'R' => some ⟨.rook, true⟩
  | 'Q' => some ⟨.queen, true⟩
  | 'K' => some ⟨.king, true⟩
  | 'p' => some ⟨.pawn, false⟩
  | 'n' => some ⟨.knight, false⟩
  | 'b' => some ⟨.bishop, false⟩
  | 'r' => some ⟨.rook, false⟩
  | 'q' => some ⟨.queen, false⟩
  | 'k' => some ⟨.king, false⟩
  | _ => none

def charOfPiece (p : Piece) : Char :=
  match p.kind, p.white with
  | .pawn, true => 'P'
  | .knight, true => 'N'
  | .bishop, true => 'B'
  | .rook, true => 'R'
  | .queen, true => 'Q'
  | .king, true => 'K'
  | .pawn, false => 'p'
  | .knight, false => 'n'
  | .bishop, false => 'b'
  | .rook, false => 'r'
  | .queen, false => 'q'
  | .king, false => 'k'

/-- Split a character list at every occurrence of `sep`, keeping empty
chunks (Python `str.split(sep)`). -/
def splitOnChar (sep : Char) : List Char → List (List Char)
  | [] => [[]]
  | c :: cs =>
    let r := splitOnChar sep cs
    if c = sep then [] :: r
    else
      match r with
      | [] => [[c]]
      | h :: t => (c :: h) :: t

/-- Python `str.split()` with no argument: split on whitespace runs,
dropping empty chunks. -/
def splitWS (cs : List Char) : List (List Char) :=
  (splitOnChar ' ' cs).filter (fun w => !w.isEmpty)

def isFenDigit (c : Char) : Bool := '1' ≤ c && c ≤ '8'

/-- Parse one rank of the FEN board field (file a to h), enforcing the
python-chess checks: no two adjacent digits, only piece letters or
digits, and a field sum of exactly eight. -/
def parseRowAux : List Char → Bool → Nat → Option (List (Option Piece))
  | [], _, n => if n = 8 then some [] else none
  | c :: cs, prevDigit, n =>
    if isFenDigit c then
      if prevDigit then none
      else
        let k := c.toNat - '0'.toNat
        (parseRowAux cs true (n + k)).map (fun rest => List.replicate k none ++ rest)
    else
      match pieceOfChar c with
      | some p => (parseRowAux cs false (n + 1)).map (fun rest => some p :: rest)
      | none => none

def parseRow (cs : List Char) : Option (List (Option Piece)) :=
  parseRowAux cs false 0

/-- Parse the FEN board field: exactly eight `/`-separated ranks, given
from rank 8 down to rank 1; the resulting placement list starts at a1. -/
def parseBoardPart (cs : List Char) : Option (List (Option Piece)) :=
  let rows := splitOnChar '/' cs
  if rows.length = 8 then
    (rows.mapM parseRow).map (fun rs => rs.reverse.flatten)
  else none

def parseTurnPart : Option (List Char) → Option Bool
  | none => some true
  | some ['w'] => some true
  | some ['b'] => some false
  | some _ => none

def castleChars : List Char := ['K', 'Q', 'k', 'q']

def parseCastlePart : Option (List Char) → Option (Bool × Bool × Bool × Bool)
  | none => some (false, false, false, false)
  | some cs =>
    if cs = ['-'] then some (false, false, false, false)
    else if !cs.isEmpty && cs.all (fun c => castleChars.contains c) then
      some (cs.contains 'K', cs.contains 'Q', cs.contains 'k', cs.contains 'q')
    else none

def sqOfName (fc rc : Char) : Option Nat :=
  if 'a' ≤ fc && fc ≤ 'h' && '1' ≤ rc && rc ≤ '8' then
    some ((fc.toNat - 'a'.toNat) + 8 * (rc.toNat - '1'.toNat))
  else none

/-- En passant field: `-` or a square on rank 3 or 6
(python-chess `FEN_EN_PASSANT_REGEX`). -/
def parseEpPart : Option (List Char) → Option (Option Nat)
  | none => some none
  | some ['-'] => some none
  | some [fc, rc] =>
    if rc = '3' || rc = '6' then (sqOfName fc rc).map some else none
  | some _ => none

def parseNatAux : List Char → Nat → Option Nat
  | [], acc => some acc
  | c :: cs, acc =>
    if '0' ≤ c && c ≤ '9' then parseNatAux cs (acc * 10 + (c.toNat - '0'.toNat))
    else none

def parseNatChars : List Char → Option Nat
  | [] => none
  | cs => parseNatAux cs 0

def parseHalfPart : Option (List Char) → Option Nat
  | none => some 0
  | some cs => parseNatChars cs

/-- Fullmove field: python-chess clamps the parsed value to at least 1. -/
def parseFullPart : Option (List Char) → Option Nat
  | none => some 1
  | some cs => (parseNatChars cs).map (fun n => max n 1)

def parseFen (fen : String) : Option Board :=
  match splitWS fen.data with
  | [] => none
  | boardP :: rest =>
    if rest.length ≤ 5 then
      match parseBoardPart boardP, parseTurnPart (rest.get? 0),
            parseCastlePart (rest.get? 1), parseEpPart (rest.get? 2),
            parseHalfPart (rest.get? 3), parseFullPart (rest.get? 4) with
      | some pieces, some turnWhite, some (wk, wq, bk, bq), some ep,
        some half, some full =>
        some ⟨pieces, turnWhite, wk, wq, bk, bq, ep, half, full⟩
      | _, _, _, _, _, _ => none
    else none

/-! ### Move generation and application -/

def bishopDirs : List (Int × Int) := [(1, 1), (1, -1), (-1, 1), (-1, -1)]

def rookDirs : List (Int × Int) := [(1, 0), (-1, 0), (0, 1), (0, -1)]

def kingDirs : List (Int × Int) := bishopDirs ++ rookDirs

def knightDirs : List (Int × Int) :=
  [(1, 2), (2, 1), (2, -1), (1, -2), (-1, -2), (-2, -1), (-2, 1), (-1, 2)]

/-- Destinations of a sliding piece of color `white` from coordinates
`(f, r)` along direction `(df, dr)`: empty squares until the first
occupied square, which is included when it holds an enemy piece. -/
def slideFrom (b : Board) (white : Bool) (f r df dr : Int) : Nat → List Nat
  | 0 => []
  | fuel + 1 =>
    match mkSq (f + df) (r + dr) with
    | none => []
    | some sq =>
      match pieceAt b sq with
      | none => sq :: slideFrom b white (f + df) (r + dr) df dr fuel
      | some p => if p.white = white then [] else [sq]

def slideDirs (b : Board) (white : Bool) (sq : Nat) (dirs : List (Int × Int)) : List Nat :=
  dirs.flatMap (fun d =>
    slideFrom b white (fileOf sq : Nat) (rankOf sq : Nat) d.1 d.2 8)

/-- Single-step destinations (knight, king): on-board squares not
occupied by an own piece. -/
def stepDirs (b : Board) (white : Bool) (sq : Nat) (dirs : List (Int × Int)) : List Nat :=
  dirs.filterMap (fun d =>
    match mkSq ((fileOf sq : Int) + d.1) ((rankOf sq : Int) + d.2) with
    | none => none
    | some t =>
      match pieceAt b t with
      | none => some t
      | some p => if p.white = white then none else some t)

/-- First piece encountered from `(f, r)` along `(df, dr)`. -/
def firstAlong (b : Board) (f r df dr : Int) : Nat → Option Piece
  | 0 => none
  | fuel + 1 =>
    match mkSq (f + df) (r + dr) with
    | none => none
    | some sq =>
      match pieceAt b sq with
      | none => firstAlong b (f + df) (r + dr) df dr fuel
      | some p => some p

def stepAttacker (b : Board) (byWhite : Bool) (sq : Nat) (dirs : List (Int × Int))
    (k : PKind) : Bool :=
  dirs.any (fun d =>
    match mkSq ((fileOf sq : Int) + d.1) ((rankOf sq : Int) + d.2) with
    | none => false
    | some t => pieceAt b t = some ⟨k, byWhite⟩)

def slideAttacker (b : Board) (byWhite : Bool) (sq : Nat) (dirs : List (Int × Int))
    (ks : List PKind) : Bool :=
  dirs.any (fun d =>
    match firstAlong b (fileOf sq : Nat) (rankOf sq : Nat) d.1 d.2 8 with
    | none => false
    | some p => p.white = byWhite && ks.contains p.kind)

/-- Is `sq` attacked by a piece of color `byWhite`?  A white pawn on
`(f ∓ 1, r - 1)` attacks `(f, r)`; mirrored for black. -/
def isAttacked (b : Board) (byWhite : Bool) (sq : Nat) : Bool :=
  let pawnDr : Int := if byWhite then -1 else 1
  stepAttacker b byWhite sq [(-1, pawnDr), (1, pawnDr)] .pawn ||
  stepAttacker b byWhite sq knightDirs .knight ||
  stepAttacker b byWhite sq kingDirs .king ||
  slideAttacker b byWhite sq bishopDirs [.bishop, .queen] ||
  slideAttacker b byWhite sq rookDirs [.rook, .queen]

def kingSquare (b : Board) (white : Bool) : Option Nat :=
  (List.range 64).find? (fun sq => pieceAt b sq = some ⟨.king, white⟩)

/-- Is the king of color `white` attacked? -/
def inCheck (b : Board) (white : Bool) : Bool :=
  match kingSquare b white with
  | none => false
  | some sq => isAttacked b (!white) sq

/-- Pawn moves from `sq`: single and double pushes, captures
(including en passant), with all four promotions on the last rank. -/
def pawnMoves (b : Board) (white : Bool) (sq : Nat) : List CMove :=
  let f : Int := fileOf sq
  let r : Int := rankOf sq
  let dir : Int := if white then 1 else -1
  let startRank : Int := if white then 1 else 6
  let promoRank : Nat := if white then 7 else 0
  let mkPawn : Nat → List CMove := fun t =>
    if rankOf t = promoRank then
      [⟨sq, t, some .queen⟩, ⟨sq, t, some .rook⟩, ⟨sq, t, some .bishop⟩,
       ⟨sq, t, some .knight⟩]
    else [⟨sq, t, none⟩]
  let pushes :=
    match mkSq f (r + dir) with
    | none => []
    | some t1 =>
      if pieceAt b t1 = none then
        mkPawn t1 ++
          (if r = startRank then
            match mkSq f (r + 2 * dir) with
            | none => []
            | some t2 => if pieceAt b t2 = none then [⟨sq, t2, none⟩] else []
          else [])
      else []
  let caps := ([-1, 1] : List Int).flatMap (fun df =>
    match mkSq (f + df) (r + dir) with
    | none => []
    | some t =>
      match pieceAt b t with
      | some p => if p.white = white then [] else mkPawn t
      | none => if b.ep = some t then [⟨sq, t, none⟩] else [])
  pushes ++ caps

/-- Castling moves for the side to move: rights intact, rook in place,
squares between king and rook empty, and the king's start, transit and
landing squares not attacked. -/
def castleMoves (b : Board) (white : Bool) (sq : Nat) : List CMove :=
  let enemy := !white
  if white && sq = 4 then
    (if b.castleWK && pieceAt b 7 = some ⟨.rook, true⟩ &&
        pieceAt b 5 = none && pieceAt b 6 = none &&
        !isAttacked b enemy 4 && !isAttacked b enemy 5 && !isAttacked b enemy 6 then
      [⟨4, 6, none⟩] else []) ++
    (if b.castleWQ && pieceAt b 0 = some ⟨.rook, true⟩ &&
        pieceAt b 1 = none && pieceAt b 2 = none && pieceAt b 3 = none &&
        !isAttacked b enemy 4 && !isAttacked b enemy 3 && !isAttacked b enemy 2 then
      [⟨4, 2, none⟩] else [])
  else if !white && sq = 60 then
    (if b.castleBK && pieceAt b 63 = some ⟨.rook, false⟩ &&
        pieceAt b 61 = none && pieceAt b 62 = none &&
        !isAttacked b enemy 60 && !isAttacked b enemy 61 && !isAttacked b enemy 62 then
      [⟨60, 62, none⟩] else []) ++
    (if b.castleBQ && pieceAt b 56 = some ⟨.rook, false⟩ &&
        pieceAt b 57 = none && pieceAt b 58 = none && pieceAt b 59 = none &&
        !isAttacked b enemy 60 && !isAttacked b enemy 59 && !isAttacked b enemy 58 then
      [⟨60, 58, none⟩] else [])
  else []

def pieceMoves (b : Board) (p : Piece) (sq : Nat) : List CMove :=
  match p.kind with
  | .pawn => pawnMoves b p.white sq
  | .knight => (stepDirs b p.white sq knightDirs).map (fun t => ⟨sq, t, none⟩)
  | .bishop => (slideDirs b p.white sq bishopDirs).map (fun t => ⟨sq, t, none⟩)
  | .rook => (slideDirs b p.white sq rookDirs).map (fun t => ⟨sq, t, none⟩)
  | .queen => (slideDirs b p.white sq kingDirs).map (fun t => ⟨sq, t, none⟩)
  | .king =>
    (stepDirs b p.white sq kingDirs).map (fun t => ⟨sq, t, none⟩) ++
      castleMoves b p.white sq

/-- All pseudo-legal moves of the side to move. -/
def pseudoMoves (b : Board) : List CMove :=
  (List.range 64).flatMap (fun sq =>
    match pieceAt b sq with
    | none => []
    | some p => if p.white = b.turnWhite then pieceMoves b p sq else [])

/-- Apply a move (python-chess `board.push`): moves the piece, removes
a captured piece (including the en passant victim), applies promotion,
moves the rook on castling, updates castling rights, sets or clears the
en passant square, updates the halfmove clock, fullmove number and side
to move. -/
def doPush (b : Board) (m : CMove) : Board :=
  match pieceAt b m.src with
  | none =>
    { b with turnWhite := !b.turnWhite, ep := none,
             halfmove := b.halfmove + 1,
             fullmove := if b.turnWhite then b.fullmove else b.fullmove + 1 }
  | some p =>
    let isPawn := p.kind = PKind.pawn
    let epCapture :=
      isPawn && b.ep = some m.dst && fileOf m.src ≠ fileOf m.dst &&
        pieceAt b m.dst = none
    let capturedSq := if epCapture then (if p.white then m.dst - 8 else m.dst + 8) else m.dst
    let captured := pieceAt b capturedSq
    let movedPiece : Piece :=
      match m.promo with
      | some k => ⟨k, p.white⟩
      | none => p
    let pieces1 := (b.pieces.set m.src none).set capturedSq none
    let pieces2 := pieces1.set m.dst (some movedPiece)
    let isCastle :=
      p.kind = PKind.king &&
        ((fileOf m.src : Int) - (fileOf m.dst : Int) = 2 ||
         (fileOf m.dst : Int) - (fileOf m.src : Int) = 2)
    let pieces3 :=
      if isCastle then
        if m.dst = 6 then (pieces2.set 7 none).set 5 (some ⟨.rook, true⟩)
        else if m.dst = 2 then (pieces2.set 0 none).set 3 (some ⟨.rook, true⟩)
        else if m.dst = 62 then (pieces2.set 63 none).set 61 (some ⟨.rook, false⟩)
        else if m.dst = 58 then (pieces2.set 56 none).set 59 (some ⟨.rook, false⟩)
        else pieces2
      else pieces2
    let doublePush :=
      isPawn && ((rankOf m.dst : Int) - (rankOf m.src : Int) = 2 ||
                 (rankOf m.src : Int) - (rankOf m.dst : Int) = 2)
    { pieces := pieces3
      turnWhite := !b.turnWhite
      castleWK := b.castleWK && !(p.white && p.kind = PKind.king) &&
        m.src ≠ 7 && m.dst ≠ 7
      castleWQ := b.castleWQ && !(p.white && p.kind = PKind.king) &&
        m.src ≠ 0 && m.dst ≠ 0
      castleBK := b.castleBK && !(!p.white && p.kind = PKind.king) &&
        m.src ≠ 63 && m.dst ≠ 63
      castleBQ := b.castleBQ && !(!p.white && p.kind = PKind.king) &&
        m.src ≠ 56 && m.dst ≠ 56
      ep := if doublePush then some ((m.src + m.dst) / 2) else none
      halfmove := if isPawn || captured.isSome then 0 else b.halfmove + 1
      fullmove := if b.turnWhite then b.fullmove else b.fullmove + 1 }

/-- Legal moves: pseudo-legal moves that do not leave the mover's own
king attacked (python-chess `board.legal_moves`). -/
def legalMoves (b : Board) : List CMove :=
  (pseudoMoves b).filter (fun m => !inCheck (doPush b m) b.turnWhite)

/-! ### FEN output (python-chess `board.fen()`) -/

def digitChar (n : Nat) : Char := Char.ofNat ('0'.toNat + n)

/-- Decimal digits of a number (`n < 10^fuel`). -/
def natChars (n : Nat) : List Char :=
  let rec go : Nat → Nat → List Char → List Char
    | _, 0, acc => acc
    | 0, _, acc => acc
    | n + 1, fuel + 1, acc => go ((n + 1) / 10) fuel (digitChar ((n + 1) % 10) :: acc)
  if n = 0 then ['0'] else go n 20 []

def sqNameChars (sq : Nat) : List Char :=
  [Char.ofNat ('a'.toNat + fileOf sq), digitChar (rankOf sq + 1)]

def sqName (sq : Nat) : String := String.mk (sqNameChars sq)

/-- One rank of the board field, run-length encoding empty squares. -/
def rowChars (row : List (Option Piece)) : List Char :=
  let rec go : List (Option Piece) → Nat → List Char
    | [], 0 => []
    | [], k + 1 => [digitChar (k + 1)]
    | none :: rest, k => go rest (k + 1)
    | some p :: rest, 0 => charOfPiece p :: go rest 0
    | some p :: rest, k + 1 => digitChar (k + 1) :: charOfPiece p :: go rest 0
  go row 0

/-- Split the placement list into its eight ranks (rank 1 first). -/
def ranksOf (pieces : List (Option Piece)) : List (List (Option Piece)) :=
  (List.range 8).map (fun r => (pieces.drop (8 * r)).take 8)

def joinWithChar (sep : Char) : List (List Char) → List Char
  | [] => []
  | [w] => w
  | w :: ws => w ++ sep :: joinWithChar sep ws

def boardFenChars (b : Board) : List Char :=
  joinWithChar '/' ((ranksOf b.pieces).reverse.map rowChars)

def castleFenChars (b : Board) : List Char :=
  let cs :=
    (if b.castleWK then ['K'] else []) ++ (if b.castleWQ then ['Q'] else []) ++
    (if b.castleBK then ['k'] else []) ++ (if b.castleBQ then ['q'] else [])
  if cs.isEmpty then ['-'] else cs

/-- Is some legal move of `b` an en passant capture?  Used by
`board.fen()` (default `en_passant="legal"`), which prints the en
passant square only when it is actually capturable. -/
def hasLegalEp (b : Board) : Bool :=
  (legalMoves b).any (fun m =>
    b.ep = some m.dst &&
      (match pieceAt b m.src with
       | some p => p.kind = PKind.pawn
       | none => false) &&
      fileOf m.src ≠ fileOf m.dst)

def epFenChars (b : Board) : List Char :=
  match b.ep with
  | none => ['-']
  | some sq => if hasLegalEp b then sqNameChars sq else ['-']

/-- `board.fen()`: board field, turn, castling, en passant (legal
policy), halfmove clock, fullmove number. -/
def fenOut (b : Board) : String :=
  String.mk
    (boardFenChars b ++ ' ' :: (if b.turnWhite then ['w'] else ['b']) ++
     ' ' :: castleFenChars b ++ ' ' :: epFenChars b ++
     ' ' :: natChars b.halfmove ++ ' ' :: natChars b.fullmove)

/-- `Move.from_uci`: `0000` is the null move; otherwise four or five
characters naming origin and destination squares and an optional
promotion piece letter, with origin ≠ destination. -/
def fromUci (s : String) : Option CMove :=
  match s.data with
  | ['0', '0', '0', '0'] => some ⟨0, 0, none⟩
  | [a, b, c, d] =>
    match sqOfName a b, sqOfName c d with
    | some s1, some s2 => if s1 = s2 then none else some ⟨s1, s2, none⟩
    | _, _ => none
  | [a, b, c, d, e] =>
    match sqOfName a b, sqOfName c d, pieceOfChar e with
    | some s1, some s2, some p =>
      if p.white then none
      else if s1 = s2 then none else some ⟨s1, s2, some p.kind⟩
    | _, _, _ => none
  | _ => none

/-! ### Terminal outcomes (python-chess `board.outcome()`)

`ChessService.make_move` rebuilds the board from a FEN on every call,
so the pushed board has a single-move history: the repetition
terminations can never fire, and `outcome()` (called with its default
`claim_draw=False`) can only report checkmate, insufficient material,
stalemate or the seventy-five-move rule, in that order. -/

def anyPiece (b : Board) (pred : Piece → Bool) : Bool :=
  (List.range 64).any (fun sq =>
    match pieceAt b sq with
    | some p => pred p
    | none => false)

def countPieces (b : Board) (pred : Piece → Bool) : Nat :=
  ((List.range 64).filter (fun sq =>
    match pieceAt b sq with
    | some p => pred p
    | none => false)).length

def isDarkSquare (sq : Nat) : Bool := (fileOf sq + rankOf sq) % 2 = 0

def anyBishopOn (b : Board) (dark : Bool) : Bool :=
  (List.range 64).any (fun sq =>
    isDarkSquare sq = dark &&
      (match pieceAt b sq with
       | some p => p.kind = PKind.bishop
       | none => false))

/-- python-chess `has_insufficient_material(color)`. -/
def hasInsufficientMaterial (b : Board) (white : Bool) : Bool :=
  if anyPiece b (fun p => p.white = white &&
      (p.kind = PKind.pawn || p.kind = PKind.rook || p.kind = PKind.queen)) then
    false
  else if anyPiece b (fun p => p.white = white && p.kind = PKind.knight) then
    countPieces b (fun p => p.white = white) ≤ 2 &&
      !anyPiece b (fun p => p.white ≠ white &&
        p.kind ≠ PKind.king && p.kind ≠ PKind.queen)
  else if anyPiece b (fun p => p.white = white && p.kind = PKind.bishop) then
    (!anyBishopOn b true || !anyBishopOn b false) &&
      !anyPiece b (fun p => p.kind = PKind.pawn) &&
      !anyPiece b (fun p => p.kind = PKind.rook)
  else true

def insufficientMaterial (b : Board) : Bool :=
  hasInsufficientMaterial b true && hasInsufficientMaterial b false

/-- `board.outcome()` restricted as above, already mapped to the winner
and outcome strings of `ChessService.make_move` (lines 74–99 of
`src/chess/service.py`). -/
def outcomeOf (b : Board) : Option (String × String) :=
  let legal := legalMoves b
  if inCheck b b.turnWhite && legal.isEmpty then
    some (if b.turnWhite then "black" else "white", "checkmate")
  else if insufficientMaterial b then some ("draw", "insufficient_material")
  else if legal.isEmpty then some ("draw", "stalemate")
  else if 150 ≤ b.halfmove then some ("draw", "seventy_five_moves")
  else none

/-! ### ChessService (src/chess/service.py) -/

/-- `MoveResult` dataclass. -/
structure MoveResult where
  success : Bool
  new_fen : String
  is_game_over : Bool
  winner : Option String
  outcome : Option String
  error : Option String
deriving DecidableEq

def STARTING_FEN : String :=
  "rnbqkbnr/pppppppp/8/8/8/8/PPPPPPPP/RNBQKBNR w KQkq - 0 1"

/-- `ChessService.get_turn`: `none` models the `ValueError` that
`chess.Board(fen)` raises on an invalid FEN. -/
def getTurn (fen : String) : Option String :=
  (parseFen fen).map (fun b => if b.turnWhite then "white" else "black")

/-- `ChessService.make_move`.  `Except.error` models the `ValueError`
raised by `chess.Board(fen)` on an invalid position string (which the
service does not catch); every other path returns a `MoveResult`. -/
def svcMakeMove (fen uci : String) : Except String MoveResult :=
  match parseFen fen with
  | none => .error "invalid position"
  | some board =>
    match fromUci uci with
    | none => .ok ⟨false, fen, false, none, none, some ("Invalid UCI format: " ++ uci)⟩
    | some m =>
      if m ∈ legalMoves board then
        let b2 := doPush board m
        match outcomeOf b2 with
        | some wo => .ok ⟨true, fenOut b2, true, some wo.1, some wo.2, none⟩
        | none => .ok ⟨true, fenOut b2, false, none, none, none⟩
      else .ok ⟨false, fen, false, none, none, some ("Illegal move: " ++ uci)⟩

/-! ### Board rendering (src/chess/render.py) -/

def pieceSymbol (p : Piece) : String :=
  match p.kind, p.white with
  | .pawn, true => "♙"
  | .knight, true => "♘"
  | .bishop, true => "♗"
  | .rook, true => "♖"
  | .queen, true => "♕"
  | .king, true => "♔"
  | .pawn, false => "♟︎"
  | .knight, false => "♞"
  | .bishop, false => "♝"
  | .rook, false => "♜"
  | .queen, false => "♛"
  | .king, false => "♚"

/-- Accumulate `from_square → [to_squares]` preserving first-seen key
order and per-key move order (Python dict insertion order). -/
def insertLM (acc : List (Nat × List Nat)) (f t : Nat) : List (Nat × List Nat) :=
  match acc with
  | [] => [(f, [t])]
  | (g, ts) :: rest =>
    if g = f then (g, ts ++ [t]) :: rest else (g, ts) :: insertLM rest f t

def legalMovesEntries (ms : List CMove) : List (Nat × List Nat) :=
  ms.foldl (fun acc m => insertLM acc m.src m.dst) []

def joinWithStr (sep : String) : List String → String
  | [] => ""
  | [s] => s
  | s :: ss => s ++ sep ++ joinWithStr sep ss

def quoteStr (s : String) : String := "\"" ++ s ++ "\""

/-- `json.dumps` of the legal-move map, with its default separators. -/
def legalMovesJson (ms : List CMove) : String :=
  "\x7b" ++
    joinWithStr ", " ((legalMovesEntries ms).map (fun e =>
      quoteStr (sqName e.1) ++ ": [" ++
        joinWithStr ", " (e.2.map (fun t => quoteStr (sqName t))) ++ "]")) ++
    "\x7d"

def squareCell (b : Board) (f r : Nat) : String :=
  let sq := f + 8 * r
  let colorCls := if (f + r) % 2 = 1 then "light" else "dark"
  match pieceAt b sq with
  | some p =>
    "<td id=" ++ quoteStr (sqName sq) ++ " class=\"chess-square-" ++ colorCls ++
      " chess-piece-" ++ String.mk [charOfPiece p] ++ "\">" ++ pieceSymbol p ++ "</td>"
  | none =>
    "<td id=" ++ quoteStr (sqName sq) ++ " class=\"chess-square-" ++ colorCls ++
      "\"></td>"

/-- Rank iteration order: white perspective shows rank 8 at the top. -/
def renderRanks (persp : String) : List Nat :=
  if persp = "white" then [7, 6, 5, 4, 3, 2, 1, 0] else [0, 1, 2, 3, 4, 5, 6, 7]

def renderFiles (persp : String) : List Nat :=
  if persp = "white" then [0, 1, 2, 3, 4, 5, 6, 7] else [7, 6, 5, 4, 3, 2, 1, 0]

def renderRow (b : Board) (files : List Nat) (r : Nat) : String :=
  "<tr>" ++ joinWithStr "" (files.map (fun f => squareCell b f r)) ++ "</tr>"

/-- `render_board_html(fen, perspective)`.  `none` models the
`ValueError` raised by `chess.Board(fen)` on an invalid FEN. -/
def renderBoardHtml (fen : String) (perspective : String) : Option String :=
  (parseFen fen).map (fun board =>
    "<table id=\"chessboard\" class=\"chess-board\" data-legal-moves='" ++
      (legalMovesJson (legalMoves board) ++
        ("'>" ++
          (joinWithStr ""
              ((renderRanks perspective).map (fun r =>
                renderRow board (renderFiles perspective) r)) ++
            "</table>"))))

/-! ## Database models (src/database/models/game.py)

The relational store is embedded as in-memory lists of rows, one per
table, in insertion order.  Row ids are opaque strings (`uuid4` in the
source); operations that create a `Position` row take the fresh id as
an argument, freshness being an assumption of the real system.  `Move`
row ids are never consulted (`record_move` only counts rows), so the
model omits them. -/

structure GameRec where
  id : String
  white_player_id : Option String
  black_player_id : Option String
  status : String
  winner : Option String
  outcome : Option String
deriving DecidableEq

structure PosRec where
  id : String
  fen : String
deriving DecidableEq

structure MoveRec where
  game_id : String
  position_id : String
  move_number : Nat
  uci_move : String
deriving DecidableEq

structure DB where
  games : List GameRec
  positions : List PosRec
  moves : List MoveRec
deriving DecidableEq

/-- `Game.get_by_id`: first row matching the id. -/
def findGame (db : DB) (gid : String) : Option GameRec :=
  db.games.find? (fun g => g.id = gid)

/-- The rows of the move ledger belonging to one game, in insertion
order. -/
def movesOf (db : DB) (gid : String) : List MoveRec :=
  db.moves.filter (fun m => m.game_id = gid)

def findPosById (db : DB) (pid : String) : Option PosRec :=
  db.positions.find? (fun p => p.id = pid)

/-- The join of `get_current_fen`: each move of the game paired with
the FEN of its position row (moves whose foreign key resolves to no
row produce no joined row). -/
def joinedMoves (db : DB) (gid : String) : List (Nat × String) :=
  (movesOf db gid).filterMap (fun m =>
    (findPosById db m.position_id).map (fun p => (m.move_number, p.fen)))

/-- `ORDER BY move_number DESC LIMIT 1`: a pair with maximal move
number (first such pair on ties). -/
def latestPair : List (Nat × String) → Option (Nat × String)
  | [] => none
  | x :: xs =>
    match latestPair xs with
    | none => some x
    | some y => if x.1 < y.1 then some y else some x

/-- `Game.get_current_fen`: FEN of the latest move's position, or the
canonical start position for a game without moves. -/
def currentFen (db : DB) (gid : String) : String :=
  match latestPair (joinedMoves db gid) with
  | some nf => nf.2
  | none => STARTING_FEN

/-- `Position.get_or_create`: look the FEN up by value; insert a fresh
row only if absent.  Returns the row and the updated store. -/
def getOrCreatePos (db : DB) (fen : String) (freshPos : String) : PosRec × DB :=
  match db.positions.find? (fun p => p.fen = fen) with
  | some p => (p, db)
  | none =>
    let p : PosRec := ⟨freshPos, fen⟩
    (p, { db with positions := db.positions ++ [p] })

/-- Update the first game row matching the id (the row
`select(Game).filter_by(id=...).first()` mutates); no-op when absent. -/
def updateFirstGame (gs : List GameRec) (gid : String) (f : GameRec → GameRec) :
    List GameRec :=
  match gs with
  | [] => []
  | g :: rest =>
    if g.id = gid then f g :: rest else g :: updateFirstGame rest gid f

/-- `Game.record_move`: get-or-create the position row, count the
game's existing moves, append a move row numbered count + 1, and on
the first move flip a still-`created` game to `active`. -/
def recordMove (db : DB) (gid uci new_fen freshPos : String) : DB :=
  let pdb := getOrCreatePos db new_fen freshPos
  let cnt := (movesOf pdb.2 gid).length
  let db2 := { pdb.2 with
    moves := pdb.2.moves ++ [⟨gid, pdb.1.id, cnt + 1, uci⟩] }
  if cnt = 0 then
    { db2 with
      games := updateFirstGame db2.games gid (fun g =>
        if g.status = "created" then { g with status := "active" } else g) }
  else db2

/-- `Game.complete_game`: set status, winner and outcome on the first
row matching the id; no-op when the game is absent. -/
def completeGame (db : DB) (gid : String) (winner outcome : Option String) : DB :=
  { db with
    games := updateFirstGame db.games gid (fun g =>
      { g with status := "complete", winner := winner, outcome := outcome }) }

/-- An input to one `record_move` call: the move, the resulting FEN
and the id to use should a fresh position row be needed. -/
structure MoveReq where
  uci : String
  new_fen : String
  posId : String
deriving DecidableEq

/-- A sequence of `record_move` calls against one game. -/
def recordMoves (db : DB) (gid : String) : List MoveReq → DB
  | [] => db
  | r :: rs => recordMoves (recordMove db gid r.uci r.new_fen r.posId) gid rs

/-! ## Move submission pipeline (src/server/api/v0/games/move.py)

`make_move` is embedded as a pure function from the committed database
and the request to the response, the database after the request (the
input database when nothing was committed; the SQLAlchemy session's
pending writes are discarded on an exception) and a trace of the
effectful steps whose order the specification constrains: the call
into the rules service, the commit (carrying the database state it
persists), and the broadcast (carrying the event kind and payload
handed to `GameBroadcaster.broadcast_to_game`). -/

/-- Python `str(x)` for an optional string: `str(None) == "None"`. -/
def pyStr : Option String → String
  | none => "None"
  | some s => s

/-- Python `a or b` for an optional string: `None` and `""` are falsy. -/
def pyOrStr (o : Option String) (d : String) : String :=
  match o with
  | some s => if s = "" then d else s
  | none => d

/-- An `HTTPException`: status code and detail. -/
structure HErr where
  status : Nat
  detail : String
deriving DecidableEq

inductive Action where
  | rulesCall (fen uci : String)
  | commit (db : DB)
  | broadcast (kind payload : String)
deriving DecidableEq

instance instDecEqExcept {α β : Type} [DecidableEq α] [DecidableEq β] :
    DecidableEq (Except α β)
  | .error a, .error b =>
    if h : a = b then .isTrue (by rw [h])
    else .isFalse (by intro he; cases he; exact h rfl)
  | .error _, .ok _ => .isFalse (by intro h; cases h)
  | .ok _, .error _ => .isFalse (by intro h; cases h)
  | .ok a, .ok b =>
    if h : a = b then .isTrue (by rw [h])
    else .isFalse (by intro he; cases he; exact h rfl)

structure Pipe where
  resp : Except HErr Unit
  db : DB
  trace : List Action
deriving DecidableEq

def makeMovePipeline (db : DB) (gid uid uci : String) (resign : Bool)
    (freshPos : String) : Pipe :=
  match findGame db gid with
  | none => ⟨.error ⟨404, "Game not found"⟩, db, []⟩
  | some game =>
    if game.status = "complete" then
      ⟨.error ⟨400, "Game is already complete"⟩, db, []⟩
    else
      let fen := currentFen db gid
      match getTurn fen with
      | none => ⟨.error ⟨500, "Internal Server Error"⟩, db, []⟩
      | some turn =>
        if turn = "white" ∧ pyStr game.white_player_id ≠ uid then
          ⟨.error ⟨403, "Not your turn"⟩, db, []⟩
        else if turn = "black" ∧ pyStr game.black_player_id ≠ uid then
          ⟨.error ⟨403, "Not your turn"⟩, db, []⟩
        else if resign then
          let winner := if turn = "white" then "black" else "white"
          let db1 := completeGame db gid (some winner) (some "resignation")
          match renderBoardHtml fen "white" with
          | none => ⟨.error ⟨500, "Internal Server Error"⟩, db1, [.commit db1]⟩
          | some html =>
            ⟨.ok (), db1, [.commit db1, .broadcast ("game-update-" ++ gid) html]⟩
        else
          match svcMakeMove fen uci with
          | .error _ => ⟨.error ⟨500, "Internal Server Error"⟩, db, [.rulesCall fen uci]⟩
          | .ok result =>
            if result.success = false then
              ⟨.error ⟨400, pyOrStr result.error "Invalid move"⟩, db,
                [.rulesCall fen uci]⟩
            else
              let db1 := recordMove db gid uci result.new_fen freshPos
              let db2 :=
                if result.is_game_over then
                  completeGame db1 gid result.winner result.outcome
                else db1
              match renderBoardHtml result.new_fen "white" with
              | none =>
                ⟨.error ⟨500, "Internal Server Error"⟩, db2,
                  [.rulesCall fen uci, .commit db2]⟩
              | some html =>
                ⟨.ok (), db2,
                  [.rulesCall fen uci, .commit db2,
                    .broadcast ("game-update-" ++ gid) html]⟩

/-! ## Game broadcaster registry (src/state.py, class GameBroadcaster) -/

structure BroadcasterState where
  channels : List (String × ChannelState)

/-- `GameBroadcaster.get_channel`: lazily create the channel on first
access. -/
def getChannel (bs : BroadcasterState) (gid : String) :
    BroadcasterState × ChannelState :=
  match bs.channels.find? (fun c => c.1 = gid) with
  | some c => (bs, c.2)
  | none =>
    let ch : ChannelState := ⟨[], fun _ => [], 0⟩
    (⟨bs.channels ++ [(gid, ch)]⟩, ch)

def setChannel : List (String × ChannelState) → String → ChannelState →
    List (String × ChannelState)
  | [], _, _ => []
  | c :: rest, gid, ch =>
    if c.1 = gid then (gid, ch) :: rest else c :: setChannel rest gid ch

/-- `GameBroadcaster.broadcast_to_game`: resolve or create the
channel, then broadcast with the per-game event kind
`game-update-{game_id}`. -/
def broadcastToGame (failing : Nat → Bool) (bs : BroadcasterState)
    (gid html : String) : BroadcasterState :=
  let r := getChannel bs gid
  ⟨setChannel r.1.channels gid
    (chanBroadcast failing ("game-update-" ++ gid, html) r.2)⟩

/-! ## Streaming viewer session (src/server/api/v0/games/stream.py)

The per-event step of `event_generator` (lines 44–59): an event whose
kind starts with `fen-update-` is re-rendered from the raw FEN it
carries, for the session's pinned perspective, or for the side to move
when unpinned; any other event is yielded verbatim.  `Except.error`
models an exception escaping the generator (an invalid FEN reaching
`get_turn` or `render_board_html`). -/

/-- Python `str.startswith`. -/
def pyStartsWith (s pre : String) : Bool :=
  pre.data.isPrefixOf s.data

def sessionStep (perspective : Option String) (gameId : String) (ev : Event) :
    Except Unit Event :=
  if pyStartsWith ev.1 "fen-update-" then
    let fen := ev.2
    let vp? : Option String :=
      if perspective = some "white" ∨ perspective = some "black" then perspective
      else getTurn fen
    match vp? with
    | none => .error ()
    | some vp =>
      match renderBoardHtml fen vp with
      | none => .error ()
      | some h => .ok ("game-update-" ++ gameId, h)
  else .ok ev

/-! ## Concrete fixtures used by witnesses and counterexamples -/

/-- A channel with two live subscriber queues. -/
def sampleChannel : ChannelState := ⟨[0, 1], fun _ => [], 2⟩

/-- A freshly created game with no players assigned. -/
def dbNoPlayers : DB := ⟨[⟨"g1", none, none, "created", none, none⟩], [], []⟩

/-- A freshly created game whose white seat is user `u1`. -/
def dbWhiteAssigned : DB := ⟨[⟨"g1", some "u1", none, "created", none, none⟩], [], []⟩

/-- The position after 1. e4, as printed by the rules library. -/
def fenAfterE4 : String :=
  "rnbqkbnr/pppppppp/8/8/4P3/8/PPPP1PPP/RNBQKBNR b KQkq - 0 1"

/-- The parsed start position (used to instantiate universally
quantified theorems at a concrete board). -/
def startBoard : Board :=
  (parseFen STARTING_FEN).getD ⟨[], true, false, false, false, false, none, 0, 1⟩

/-! Auxiliary lemmas about the broadcast loop. -/

theorem chanBroadcastAux_queues_notMem (failing : Nat → Bool) (ev : Event) :
    ∀ (l : List Nat) (st : ChannelState) (q : Nat), q ∉ l →
      (chanBroadcastAux failing ev l st).queues q = st.queues q := by
  intro l
  induction l with
  | nil => intro st q _; rfl
  | cons a rest ih =>
    intro st q hq
    have hqa : q ≠ a := fun h => hq (h ▸ List.mem_cons_self a rest)
    have hqrest : q ∉ rest := fun h => hq (List.mem_cons_of_mem a h)
    by_cases hf : failing a
    · simp only [chanBroadcastAux, hf, if_pos]
      exact ih _ q hqrest
    · simp only [chanBroadcastAux, hf, if_neg, Bool.false_eq_true, not_false_iff]
      rw [ih _ q hqrest]
      simp [hqa]

theorem chanBroadcastAux_subscribers_nofail (ev : Event) :
    ∀ (l : List Nat) (st : ChannelState),
      (chanBroadcastAux (fun _ => false) ev l st).subscribers = st.subscribers := by
  intro l
  induction l with
  | nil => intro st; rfl
  | cons a rest ih => intro st; simp only [chanBroadcastAux]; exact ih _

theorem chanBroadcastAux_queues_mem_nofail (ev : Event) :
    ∀ (l : List Nat) (st : ChannelState) (q : Nat), l.Nodup → q ∈ l →
      (chanBroadcastAux (fun _ => false) ev l st).queues q = st.queues q ++ [ev] := by
  intro l
  induction l with
  | nil => intro st q _ h; exact absurd h (List.not_mem_nil q)
  | cons a rest ih =>
    intro st q hnd hq
    have hnd2 := List.nodup_cons.mp hnd
    simp only [chanBroadcastAux, Bool.false_eq_true, if_false]
    rcases List.mem_cons.mp hq with hqa | hqrest
    · subst hqa
      rw [chanBroadcastAux_queues_notMem _ ev rest _ q hnd2.1]
      simp
    · have hqa : q ≠ a := fun h => hnd2.1 (h ▸ hqrest)
      rw [ih _ q hnd2.2 hqrest]
      simp [hqa]

/-! Lemmas about a broadcast during which exactly the queue `q0` fails. -/

theorem chanBroadcastAux_queues_q0 (ev : Event) (q0 : Nat) :
    ∀ (l : List Nat) (st : ChannelState),
      (chanBroadcastAux (fun q => q == q0) ev l st).queues q0 = st.queues q0 := by
  intro l
  induction l with
  | nil => intro st; rfl
  | cons a rest ih =>
    intro st
    by_cases ha : a = q0
    · subst ha
      simp only [chanBroadcastAux, beq_self_eq_true, eq_self_iff_true, if_true]
      exact ih _
    · have haf : (a == q0) = false := by simp [ha]
      simp only [chanBroadcastAux, haf, Bool.false_eq_true, if_false]
      rw [ih _]
      have h2 : q0 ≠ a := fun h => ha h.symm
      simp [h2]

theorem chanBroadcastAux_queues_mem_fail (ev : Event) (q0 : Nat) :
    ∀ (l : List Nat) (st : ChannelState) (q : Nat), l.Nodup → q ∈ l → q ≠ q0 →
      (chanBroadcastAux (fun r => r == q0) ev l st).queues q = st.queues q ++ [ev] := by
  intro l
  induction l with
  | nil => intro st q _ h _; exact absurd h (List.not_mem_nil q)
  | cons a rest ih =>
    intro st q hnd hq hq0
    have hnd2 := List.nodup_cons.mp hnd
    by_cases ha : a = q0
    · subst ha
      have hqrest : q ∈ rest := by
        rcases List.mem_cons.mp hq with h | h
        · exact absurd h hq0
        · exact h
      simp only [chanBroadcastAux, beq_self_eq_true, eq_self_iff_true, if_true]
      exact ih _ q hnd2.2 hqrest hq0
    · have haf : (a == q0) = false := by simp [ha]
      simp only [chanBroadcastAux, haf, Bool.false_eq_true, if_false]
      rcases List.mem_cons.mp hq with hqa | hqrest
      · subst hqa
        rw [chanBroadcastAux_queues_notMem _ ev rest _ q hnd2.1]
        simp
      · have hqa : q ≠ a := fun h => hnd2.1 (h ▸ hqrest)
        rw [ih _ q hnd2.2 hqrest hq0]
        simp [hqa]

theorem chanBroadcastAux_subscribers_notMem_fail (ev : Event) (q0 : Nat) :
    ∀ (l : List Nat) (st : ChannelState), q0 ∉ l →
      (chanBroadcastAux (fun r => r == q0) ev l st).subscribers = st.subscribers := by
  intro l
  induction l with
  | nil => intro st _; rfl
  | cons a rest ih =>
    intro st hq0
    have ha : a ≠ q0 := fun h => hq0 (h ▸ List.mem_cons_self a rest)
    have haf : (a == q0) = false := by simp [ha]
    simp only [chanBroadcastAux, haf, Bool.false_eq_true, if_false]
    exact ih _ (fun h => hq0 (List.mem_cons_of_mem a h))

theorem chanBroadcastAux_subscribers_mem_fail (ev : Event) (q0 : Nat) :
    ∀ (l : List Nat) (st : ChannelState), l.Nodup → q0 ∈ l →
      (chanBroadcastAux (fun r => r == q0) ev l st).subscribers =
        st.subscribers.filter (fun r => r != q0) := by
  intro l
  induction l with
  | nil => intro st _ h; exact absurd h (List.not_mem_nil q0)
  | cons a rest ih =>
    intro st hnd hq0
    have hnd2 := List.nodup_cons.mp hnd
    by_cases ha : a = q0
    · subst ha
      simp only [chanBroadcastAux, beq_self_eq_true, eq_self_iff_true, if_true]
      rw [chanBroadcastAux_subscribers_notMem_fail ev a rest _ hnd2.1]
    · have haf : (a == q0) = false := by simp [ha]
      simp only [chanBroadcastAux, haf, Bool.false_eq_true, if_false]
      have hq0rest : q0 ∈ rest := by
        rcases List.mem_cons.mp hq0 with h | h
        · exact absurd h.symm ha
        · exact h
      exact ih _ hnd2.2 hq0rest

/-! ## Claim theorems -/

/-- C1: broadcasting on a game channel (with no enqueue failures)
appends exactly one copy of the event to every queue in the subscriber
set at the moment of the call, leaves every queue outside the set
untouched, and in particular delivers nothing to a queue unsubscribed
before the call. -/
theorem c1_broadcast_reaches_exactly_subscribers
    (st : ChannelState) (ev : Event) (q : Nat) (hnd : st.subscribers.Nodup) :
    (q ∈ st.subscribers →
      (chanBroadcast (fun _ => false) ev st).queues q = st.queues q ++ [ev]) ∧
    (q ∉ st.subscribers →
      (chanBroadcast (fun _ => false) ev st).queues q = st.queues q) ∧
    (chanBroadcast (fun _ => false) ev (chanUnsubscribe st q)).queues q =
      st.queues q := by
  refine ⟨fun hq => chanBroadcastAux_queues_mem_nofail ev _ st q hnd hq,
    fun hq => chanBroadcastAux_queues_notMem _ ev _ st q hq, ?_⟩
  have hq : q ∉ (chanUnsubscribe st q).subscribers := by
    simp [chanUnsubscribe, List.mem_filter]
  exact chanBroadcastAux_queues_notMem _ ev _ _ q hq

/-- C1 witness: a channel with subscribers 0 and 1; queue 0 receives
exactly the event, queue 5 (never subscribed) receives nothing, and
queue 0 receives nothing if it unsubscribes beforehand. -/
theorem c1_broadcast_reaches_exactly_subscribers_witness :
    sampleChannel.subscribers.Nodup ∧
    ((0 ∈ sampleChannel.subscribers →
      (chanBroadcast (fun _ => false) ("k", "d") sampleChannel).queues 0 =
        sampleChannel.queues 0 ++ [("k", "d")]) ∧
     (0 ∉ sampleChannel.subscribers →
      (chanBroadcast (fun _ => false) ("k", "d") sampleChannel).queues 0 =
        sampleChannel.queues 0) ∧
     (chanBroadcast (fun _ => false) ("k", "d")
        (chanUnsubscribe sampleChannel 0)).queues 0 = sampleChannel.queues 0) :=
  ⟨by decide,
   c1_broadcast_reaches_exactly_subscribers sampleChannel ("k", "d") 0 (by decide)⟩

/-- C3: if during a broadcast the enqueue onto exactly queue `q0`
fails, then `q0` is discarded from the subscriber set, `q0`'s queue is
left untouched, and every other subscribed queue still receives the
event.  The broadcast itself is a total function — the failure is
caught inside the loop, never propagated. -/
theorem c3_broadcast_drops_failed_subscriber
    (st : ChannelState) (ev : Event) (q0 : Nat)
    (hnd : st.subscribers.Nodup) (hq0 : q0 ∈ st.subscribers) :
    q0 ∉ (chanBroadcast (fun r => r == q0) ev st).subscribers ∧
    (chanBroadcast (fun r => r == q0) ev st).queues q0 = st.queues q0 ∧
    (∀ q ∈ st.subscribers, q ≠ q0 →
      (chanBroadcast (fun r => r == q0) ev st).queues q = st.queues q ++ [ev]) ∧
    (chanBroadcast (fun r => r == q0) ev st).subscribers =
      st.subscribers.filter (fun r => r != q0) := by
  have hsub := chanBroadcastAux_subscribers_mem_fail ev q0 st.subscribers st hnd hq0
  refine ⟨?_, chanBroadcastAux_queues_q0 ev q0 st.subscribers st,
    fun q hq hne => chanBroadcastAux_queues_mem_fail ev q0 st.subscribers st q hnd hq hne,
    hsub⟩
  rw [chanBroadcast, hsub]
  intro hmem
  have := (List.mem_filter.mp hmem).2
  simp at this

/-- C3 witness: subscribers 0 and 1, queue 0's consumer is gone: 0 is
dropped, its queue unchanged, and queue 1 still receives the event. -/
theorem c3_broadcast_drops_failed_subscriber_witness :
    sampleChannel.subscribers.Nodup ∧ 0 ∈ sampleChannel.subscribers ∧
    (0 ∉ (chanBroadcast (fun r => r == 0) ("k", "d") sampleChannel).subscribers ∧
     (chanBroadcast (fun r => r == 0) ("k", "d") sampleChannel).queues 0 =
       sampleChannel.queues 0 ∧
     (∀ q ∈ sampleChannel.subscribers, q ≠ 0 →
       (chanBroadcast (fun r => r == 0) ("k", "d") sampleChannel).queues q =
         sampleChannel.queues q ++ [("k", "d")]) ∧
     (chanBroadcast (fun r => r == 0) ("k", "d") sampleChannel).subscribers =
       sampleChannel.subscribers.filter (fun r => r != 0)) :=
  ⟨by decide, by decide,
   c3_broadcast_drops_failed_subscriber sampleChannel ("k", "d") 0
     (by decide) (by decide)⟩

/-! Lemmas about the persistence operations. -/

theorem getOrCreatePos_moves (db : DB) (fen fresh : String) :
    (getOrCreatePos db fen fresh).2.moves = db.moves := by
  unfold getOrCreatePos
  split <;> rfl

theorem getOrCreatePos_games (db : DB) (fen fresh : String) :
    (getOrCreatePos db fen fresh).2.games = db.games := by
  unfold getOrCreatePos
  split <;> rfl

theorem movesOf_getOrCreatePos (db : DB) (gid fen fresh : String) :
    movesOf (getOrCreatePos db fen fresh).2 gid = movesOf db gid := by
  unfold movesOf
  rw [getOrCreatePos_moves]

theorem recordMove_moves (db : DB) (gid uci nf fresh : String) :
    (recordMove db gid uci nf fresh).moves =
      db.moves ++ [⟨gid, (getOrCreatePos db nf fresh).1.id,
        (movesOf (getOrCreatePos db nf fresh).2 gid).length + 1, uci⟩] := by
  by_cases h : (movesOf (getOrCreatePos db nf fresh).2 gid).length = 0
  · simp [recordMove, h, getOrCreatePos_moves]
  · simp [recordMove, h, getOrCreatePos_moves]

/-- `record_move` appends exactly one row for the game, numbered one
past the game's current move count. -/
theorem movesOf_recordMove (db : DB) (gid uci nf fresh : String) :
    movesOf (recordMove db gid uci nf fresh) gid =
      movesOf db gid ++
        [⟨gid, (getOrCreatePos db nf fresh).1.id, (movesOf db gid).length + 1, uci⟩] := by
  conv_lhs => rw [movesOf, recordMove_moves db gid uci nf fresh]
  rw [List.filter_append, movesOf_getOrCreatePos]
  simp [movesOf, List.filter_cons]

theorem recordMoves_numbering (gid : String) :
    ∀ (reqs : List MoveReq) (db : DB) (n : Nat),
      (movesOf db gid).map (fun m => m.move_number) = List.range' 1 n →
      (movesOf (recordMoves db gid reqs) gid).map (fun m => m.move_number) =
        List.range' 1 (n + reqs.length) := by
  intro reqs
  induction reqs with
  | nil => intro db n h; simpa using h
  | cons r rs ih =>
    intro db n h
    have hlen : (movesOf db gid).length = n := by
      have h2 := congrArg List.length h
      simpa using h2
    have hstep : (movesOf (recordMove db gid r.uci r.new_fen r.posId) gid).map
        (fun m => m.move_number) = List.range' 1 (n + 1) := by
      rw [movesOf_recordMove]
      simp [h, hlen, List.range'_concat, Nat.add_comm]
    have h3 := ih (recordMove db gid r.uci r.new_fen r.posId) (n + 1) hstep
    have h4 : n + (r :: rs).length = (n + 1) + rs.length := by
      simp [List.length_cons]; omega
    rw [List.length_cons] at h4 ⊢
    simp only [recordMoves]
    rw [h3]
    congr 1
    omega

/-- C7: starting from a game with no recorded moves, any sequence of
successful `record_move` calls yields move numbers exactly
1, 2, …, n in recording order: contiguous from 1, no gaps, no
repeats. -/
theorem c7_move_numbers_contiguous (db : DB) (gid : String) (reqs : List MoveReq)
    (h0 : movesOf db gid = []) :
    (movesOf (recordMoves db gid reqs) gid).map (fun m => m.move_number) =
      List.range' 1 reqs.length := by
  have h := recordMoves_numbering gid reqs db 0 (by simp [h0])
  simpa using h

/-- C7 witness: two moves recorded into an empty store get numbers
[1, 2]. -/
theorem c7_move_numbers_contiguous_witness :
    movesOf (⟨[], [], []⟩ : DB) "g1" = [] ∧
    (movesOf (recordMoves ⟨[], [], []⟩ "g1"
        [⟨"e2e4", "f1", "p1"⟩, ⟨"e7e5", "f2", "p2"⟩]) "g1").map
      (fun m => m.move_number) = List.range' 1 2 :=
  ⟨rfl, c7_move_numbers_contiguous ⟨[], [], []⟩ "g1"
    [⟨"e2e4", "f1", "p1"⟩, ⟨"e7e5", "f2", "p2"⟩] rfl⟩

/-! Lemmas about the chess service. -/

theorem append_ne_empty_left (s t : String) (h : s.data ≠ []) : s ++ t ≠ "" := by
  intro he
  apply h
  have h2 : (s ++ t).data = ("" : String).data := by rw [he]
  rw [String.data_append] at h2
  exact (List.append_eq_nil.mp h2).1

theorem pyOrStr_ne_empty (o : Option String) (d : String) (hd : d ≠ "") :
    pyOrStr o d ≠ "" := by
  cases o with
  | none => exact hd
  | some s =>
    simp only [pyOrStr]
    split
    · exact hd
    · assumption

/-- Behaviour of `ChessService.make_move` on a parseable position:
the three outcomes of move parsing and legality checking. -/
theorem svcMakeMove_spec (fen uci : String) (b : Board) (hb : parseFen fen = some b) :
    (fromUci uci = none →
      svcMakeMove fen uci =
        .ok ⟨false, fen, false, none, none, some ("Invalid UCI format: " ++ uci)⟩) ∧
    (∀ m, fromUci uci = some m → m ∉ legalMoves b →
      svcMakeMove fen uci =
        .ok ⟨false, fen, false, none, none, some ("Illegal move: " ++ uci)⟩) ∧
    (∀ m, fromUci uci = some m → m ∈ legalMoves b →
      ∃ r, svcMakeMove fen uci = .ok r ∧ r.success = true) := by
  refine ⟨?_, ?_, ?_⟩
  · intro h
    unfold svcMakeMove
    rw [hb, h]
  · intro m hm hnl
    unfold svcMakeMove
    rw [hb, hm]
    dsimp only
    rw [if_neg hnl]
  · intro m hm hl
    unfold svcMakeMove
    rw [hb, hm]
    dsimp only
    rw [if_pos hl]
    cases outcomeOf (doPush b m) with
    | none => exact ⟨_, rfl, rfl⟩
    | some wo => exact ⟨_, rfl, rfl⟩

/-- C10: on a parseable position, the rules service returns a result
(never raises); the result succeeds exactly when the move string
parses and names a legal move, and on failure it carries the input
position unchanged, no game-over flag, no winner or outcome, and a
non-empty error message. -/
theorem c10_service_failure_shape (fen uci : String) (b : Board)
    (hb : parseFen fen = some b) :
    ∃ r, svcMakeMove fen uci = .ok r ∧
      (r.success = true ↔ ∃ m, fromUci uci = some m ∧ m ∈ legalMoves b) ∧
      (r.success = false →
        r.new_fen = fen ∧ r.is_game_over = false ∧ r.winner = none ∧
        r.outcome = none ∧ ∃ e, r.error = some e ∧ e ≠ "") := by
  obtain ⟨h1, h2, h3⟩ := svcMakeMove_spec fen uci b hb
  cases hu : fromUci uci with
  | none =>
    refine ⟨_, h1 hu, ?_, ?_⟩
    · simp [hu]
    · intro _
      exact ⟨rfl, rfl, rfl, rfl, _, rfl,
        append_ne_empty_left "Invalid UCI format: " uci (by decide)⟩
  | some m =>
    by_cases hl : m ∈ legalMoves b
    · obtain ⟨r, hr, hs⟩ := h3 m hu hl
      refine ⟨r, hr, ?_, ?_⟩
      · simp only [hs, true_iff]
        exact ⟨m, rfl, hl⟩
      · intro hsf
        rw [hs] at hsf
        cases hsf
    · refine ⟨_, h2 m hu hl, ?_, ?_⟩
      · constructor
        · intro hs; cases hs
        · rintro ⟨m2, hm2, hl2⟩
          cases Option.some.inj hm2
          exact absurd hl2 hl
      · intro _
        exact ⟨rfl, rfl, rfl, rfl, _, rfl,
          append_ne_empty_left "Illegal move: " uci (by decide)⟩

/-- C10 witness: at the start position, the move string "invalid" is
rejected with an unchanged position and a non-empty error. -/
theorem c10_service_failure_shape_witness :
    parseFen STARTING_FEN = some startBoard ∧
    (∃ r, svcMakeMove STARTING_FEN "invalid" = .ok r ∧
      (r.success = true ↔
        ∃ m, fromUci "invalid" = some m ∧ m ∈ legalMoves startBoard) ∧
      (r.success = false →
        r.new_fen = STARTING_FEN ∧ r.is_game_over = false ∧ r.winner = none ∧
        r.outcome = none ∧ ∃ e, r.error = some e ∧ e ≠ "")) :=
  ⟨rfl, c10_service_failure_shape STARTING_FEN "invalid" startBoard rfl⟩

/-- C4: a move submission (not a resignation) whose move string is
malformed, or names an illegal move in the game's current position, is
rejected with a non-empty reason string; the database is exactly as
before (status, winner, outcome and the move ledger unchanged) and
nothing is broadcast.  This covers every rejection path of the
pipeline: unknown game, completed game, unparseable stored position,
wrong turn, and the rules-service rejection itself. -/
theorem c4_rejected_submission_no_side_effects
    (db : DB) (gid uid uci freshPos : String)
    (hbad : fromUci uci = none ∨
      ∃ b, parseFen (currentFen db gid) = some b ∧
        ∀ m, fromUci uci = some m → m ∉ legalMoves b) :
    (makeMovePipeline db gid uid uci false freshPos).db = db ∧
    (∀ k p, Action.broadcast k p ∉ (makeMovePipeline db gid uid uci false freshPos).trace) ∧
    ∃ e, (makeMovePipeline db gid uid uci false freshPos).resp = .error e ∧
      e.detail ≠ "" := by
  cases hfg : findGame db gid with
  | none =>
    unfold makeMovePipeline
    rw [hfg]
    exact ⟨rfl, by simp, ⟨404, "Game not found"⟩, rfl, by decide⟩
  | some game =>
    unfold makeMovePipeline
    rw [hfg]
    dsimp only
    by_cases hst : game.status = "complete"
    · rw [if_pos hst]
      exact ⟨rfl, by simp, ⟨400, "Game is already complete"⟩, rfl, by decide⟩
    · rw [if_neg hst]
      cases hgt : getTurn (currentFen db gid) with
      | none =>
        exact ⟨rfl, by simp, ⟨500, "Internal Server Error"⟩, rfl, by decide⟩
      | some turn =>
        have hparse : ∃ b, parseFen (currentFen db gid) = some b := by
          rcases hmap : parseFen (currentFen db gid) with _ | b
          · rw [getTurn, hmap] at hgt; cases hgt
          · exact ⟨b, rfl⟩
        obtain ⟨b, hb⟩ := hparse
        obtain ⟨hs1, hs2, _⟩ := svcMakeMove_spec (currentFen db gid) uci b hb
        have hsvc : svcMakeMove (currentFen db gid) uci =
            .ok ⟨false, currentFen db gid, false, none, none,
              some ("Invalid UCI format: " ++ uci)⟩ ∨
          svcMakeMove (currentFen db gid) uci =
            .ok ⟨false, currentFen db gid, false, none, none,
              some ("Illegal move: " ++ uci)⟩ := by
          cases hu : fromUci uci with
          | none => exact Or.inl (hs1 hu)
          | some m =>
            rcases hbad with hL | ⟨b2, hb2, hnl⟩
            · rw [hL] at hu; cases hu
            · rw [hb] at hb2
              cases Option.some.inj hb2
              exact Or.inr (hs2 m hu (hnl m hu))
        dsimp only
        by_cases h403a : turn = "white" ∧ pyStr game.white_player_id ≠ uid
        · rw [if_pos h403a]
          exact ⟨rfl, by simp, ⟨403, "Not your turn"⟩, rfl, by decide⟩
        · rw [if_neg h403a]
          by_cases h403b : turn = "black" ∧ pyStr game.black_player_id ≠ uid
          · rw [if_pos h403b]
            exact ⟨rfl, by simp, ⟨403, "Not your turn"⟩, rfl, by decide⟩
          · rw [if_neg h403b]
            simp only [Bool.false_eq_true, if_false]
            rcases hsvc with hsvc | hsvc
            · rw [hsvc]
              dsimp only
              rw [if_pos rfl]
              refine ⟨rfl, by simp, _, rfl, ?_⟩
              show pyOrStr (some ("Invalid UCI format: " ++ uci)) "Invalid move" ≠ ""
              exact pyOrStr_ne_empty _ "Invalid move" (by decide)
            · rw [hsvc]
              dsimp only
              rw [if_pos rfl]
              refine ⟨rfl, by simp, _, rfl, ?_⟩
              show pyOrStr (some ("Illegal move: " ++ uci)) "Invalid move" ≠ ""
              exact pyOrStr_ne_empty _ "Invalid move" (by decide)

/-- C4 witness: the assigned white player submits the illegal move
e1e4 at the start position; the request is rejected and the store,
status and ledger are untouched. -/
theorem c4_rejected_submission_no_side_effects_witness :
    (fromUci "e1e4" = none ∨
      ∃ b, parseFen (currentFen dbWhiteAssigned "g1") = some b ∧
        ∀ m, fromUci "e1e4" = some m → m ∉ legalMoves b) ∧
    ((makeMovePipeline dbWhiteAssigned "g1" "u1" "e1e4" false "p0").db =
        dbWhiteAssigned ∧
     (∀ k p, Action.broadcast k p ∉
        (makeMovePipeline dbWhiteAssigned "g1" "u1" "e1e4" false "p0").trace) ∧
     ∃ e, (makeMovePipeline dbWhiteAssigned "g1" "u1" "e1e4" false "p0").resp =
        .error e ∧ e.detail ≠ "") := by
  have hbad : fromUci "e1e4" = none ∨
      ∃ b, parseFen (currentFen dbWhiteAssigned "g1") = some b ∧
        ∀ m, fromUci "e1e4" = some m → m ∉ legalMoves b := by
    refine Or.inr ⟨startBoard, rfl, fun m hm => ?_⟩
    have hm2 : some (⟨4, 28, none⟩ : CMove) = some m := hm
    cases Option.some.inj hm2
    decide
  exact ⟨hbad,
    c4_rejected_submission_no_side_effects dbWhiteAssigned "g1" "u1" "e1e4" "p0" hbad⟩

/-! Lemmas about `complete_game`. -/

theorem findGame_updateFirstGame (gs : List GameRec) (gid : String)
    (f : GameRec → GameRec) (hf : ∀ g, (f g).id = g.id) :
    (updateFirstGame gs gid f).find? (fun g => g.id = gid) =
      (gs.find? (fun g => g.id = gid)).map f := by
  induction gs with
  | nil => rfl
  | cons a rest ih =>
    by_cases ha : a.id = gid
    · simp [updateFirstGame, ha, List.find?_cons, hf]
    · simp [updateFirstGame, ha, List.find?_cons, ih]

theorem findGame_completeGame (db : DB) (gid : String) (w o : Option String) :
    findGame (completeGame db gid w o) gid =
      (findGame db gid).map (fun g =>
        { g with status := "complete", winner := w, outcome := o }) := by
  unfold findGame completeGame
  exact findGame_updateFirstGame db.games gid _ (fun g => rfl)

theorem movesOf_completeGame (db : DB) (gid gid2 : String) (w o : Option String) :
    movesOf (completeGame db gid w o) gid2 = movesOf db gid2 := rfl

theorem currentFen_completeGame (db : DB) (gid gid2 : String) (w o : Option String) :
    currentFen (completeGame db gid w o) gid2 = currentFen db gid2 := rfl

/-- C6: an accepted resignation on a non-complete game marks it
complete with the winner opposite to the side to move and outcome
"resignation", regardless of the board position; the move ledger and
current position are untouched, the rules service is never invoked,
and the unchanged current position is rendered and broadcast after the
commit. -/
theorem c6_resignation_completes_game (db : DB) (gid uid uci freshPos : String)
    (game : GameRec) (hfg : findGame db gid = some game)
    (hst : game.status ≠ "complete") (turn : String)
    (hgt : getTurn (currentFen db gid) = some turn)
    (h403a : ¬(turn = "white" ∧ pyStr game.white_player_id ≠ uid))
    (h403b : ¬(turn = "black" ∧ pyStr game.black_player_id ≠ uid)) :
    (makeMovePipeline db gid uid uci true freshPos).resp = .ok () ∧
    findGame (makeMovePipeline db gid uid uci true freshPos).db gid =
      some { game with status := "complete",
                       winner := some (if turn = "white" then "black" else "white"),
                       outcome := some "resignation" } ∧
    movesOf (makeMovePipeline db gid uid uci true freshPos).db gid =
      movesOf db gid ∧
    currentFen (makeMovePipeline db gid uid uci true freshPos).db gid =
      currentFen db gid ∧
    (∀ f u, Action.rulesCall f u ∉
      (makeMovePipeline db gid uid uci true freshPos).trace) ∧
    ∃ html, renderBoardHtml (currentFen db gid) "white" = some html ∧
      (makeMovePipeline db gid uid uci true freshPos).trace =
        [.commit (makeMovePipeline db gid uid uci true freshPos).db,
         .broadcast ("game-update-" ++ gid) html] := by
  have hparse : ∃ b, parseFen (currentFen db gid) = some b := by
    rcases hmap : parseFen (currentFen db gid) with _ | b
    · rw [getTurn, hmap] at hgt; cases hgt
    · exact ⟨b, rfl⟩
  obtain ⟨b, hb⟩ := hparse
  have hrender : ∃ h, renderBoardHtml (currentFen db gid) "white" = some h := by
    unfold renderBoardHtml
    rw [hb]
    exact ⟨_, rfl⟩
  obtain ⟨html, hrender⟩ := hrender
  unfold makeMovePipeline
  rw [hfg]
  dsimp only
  rw [if_neg hst, hgt]
  dsimp only
  rw [if_neg h403a, if_neg h403b, if_pos rfl, hrender]
  dsimp only
  refine ⟨rfl, ?_, rfl, rfl, by simp, html, rfl, rfl⟩
  rw [findGame_completeGame, hfg]
  rfl

/-- C6 witness: the assigned white player resigns a fresh game; the
game completes with winner black, outcome "resignation". -/
theorem c6_resignation_completes_game_witness :
    findGame dbWhiteAssigned "g1" =
      some ⟨"g1", some "u1", none, "created", none, none⟩ ∧
    getTurn (currentFen dbWhiteAssigned "g1") = some "white" ∧
    (makeMovePipeline dbWhiteAssigned "g1" "u1" "zz" true "p0").resp = .ok () ∧
    findGame (makeMovePipeline dbWhiteAssigned "g1" "u1" "zz" true "p0").db "g1" =
      some ⟨"g1", some "u1", none, "complete", some "black", some "resignation"⟩ := by
  have h := c6_resignation_completes_game dbWhiteAssigned "g1" "u1" "zz" "p0"
    ⟨"g1", some "u1", none, "created", none, none⟩ rfl (by decide) "white" rfl
    (by decide) (by decide)
  exact ⟨rfl, rfl, h.1, h.2.1⟩

/-- C9 counterexample: a game whose white seat is unassigned, with
white to move, accepts a move submission from a user whose id is the
literal string "None" — `str(game.white_player_id) != str(user.id)`
compares `str(None) == "None"` against the user id, so such a user
passes the turn gate and the move is recorded. -/
theorem c9_counterexample_none_string_id :
    (makeMovePipeline dbNoPlayers "g1" "None" "e2e4" false "p0").resp = .ok () ∧
    (movesOf (makeMovePipeline dbNoPlayers "g1" "None" "e2e4" false "p0").db
      "g1").map (fun m => m.uci_move) = ["e2e4"] := ⟨rfl, rfl⟩

/-- C9 (amended): a submission on an existing, non-complete game is
rejected with 403 "Not your turn" and no state change whenever the
Python string rendering of the side-to-move player slot (an unassigned
slot renders as "None") differs from the submitting user's id. -/
theorem c9_amended_turn_gate (db : DB) (gid uid uci : String) (resign : Bool)
    (freshPos : String) (game : GameRec) (hfg : findGame db gid = some game)
    (hst : game.status ≠ "complete") (turn : String)
    (hgt : getTurn (currentFen db gid) = some turn)
    (hrej : (turn = "white" ∧ pyStr game.white_player_id ≠ uid) ∨
            (turn = "black" ∧ pyStr game.black_player_id ≠ uid)) :
    makeMovePipeline db gid uid uci resign freshPos =
      ⟨.error ⟨403, "Not your turn"⟩, db, []⟩ := by
  unfold makeMovePipeline
  rw [hfg]
  dsimp only
  rw [if_neg hst, hgt]
  dsimp only
  rcases hrej with h | h
  · rw [if_pos h]
  · by_cases h1 : turn = "white" ∧ pyStr game.white_player_id ≠ uid
    · rw [if_pos h1]
    · rw [if_neg h1, if_pos h]

/-- C9 witness: user u2 submits on a game whose white seat belongs to
u1, with white to move: 403, store unchanged, nothing broadcast. -/
theorem c9_amended_turn_gate_witness :
    findGame dbWhiteAssigned "g1" =
      some ⟨"g1", some "u1", none, "created", none, none⟩ ∧
    getTurn (currentFen dbWhiteAssigned "g1") = some "white" ∧
    (("white" = "white" ∧
        pyStr (some "u1") ≠ "u2") ∨
     ("white" = "black" ∧ pyStr (none : Option String) ≠ "u2")) ∧
    makeMovePipeline dbWhiteAssigned "g1" "u2" "e2e4" false "p0" =
      ⟨.error ⟨403, "Not your turn"⟩, dbWhiteAssigned, []⟩ :=
  ⟨rfl, rfl, Or.inl ⟨rfl, by decide⟩,
   c9_amended_turn_gate dbWhiteAssigned "g1" "u2" "e2e4" false "p0"
     ⟨"g1", some "u1", none, "created", none, none⟩ rfl (by decide) "white" rfl
     (Or.inl ⟨rfl, by decide⟩)⟩

/-- C8 counterexample: on a game created with no players assigned, the
submission of "e2e4" is rejected with 403 "Not your turn" — the turn
gate compares `str(None)` with the user id, so an unassigned seat
admits no ordinary user — and nothing changes or is broadcast. -/
theorem c8_counterexample_no_players :
    makeMovePipeline dbNoPlayers "g1" "u1" "e2e4" false "p0" =
      ⟨.error ⟨403, "Not your turn"⟩, dbNoPlayers, []⟩ := rfl

/-- C8 (amended): with the submitting user assigned as white (instead
of no players assigned), submitting "e2e4" on the standard start
position succeeds, the game's status transitions from created to
active, the move is recorded as move 1, and the broadcast position
reflects the pawn advance: a white pawn stands on e4, e2 is empty, and
black is to move. -/
theorem c8_amended_first_move_activates :
    (makeMovePipeline dbWhiteAssigned "g1" "u1" "e2e4" false "p0").resp = .ok () ∧
    (findGame (makeMovePipeline dbWhiteAssigned "g1" "u1" "e2e4" false "p0").db
      "g1").map (fun g => g.status) = some "active" ∧
    (movesOf (makeMovePipeline dbWhiteAssigned "g1" "u1" "e2e4" false "p0").db
      "g1").map (fun m => (m.move_number, m.uci_move)) = [(1, "e2e4")] ∧
    ∃ html, renderBoardHtml fenAfterE4 "white" = some html ∧
      (makeMovePipeline dbWhiteAssigned "g1" "u1" "e2e4" false "p0").trace =
        [.rulesCall STARTING_FEN "e2e4",
         .commit (makeMovePipeline dbWhiteAssigned "g1" "u1" "e2e4" false "p0").db,
         .broadcast "game-update-g1" html] ∧
      ∃ b2, parseFen fenAfterE4 = some b2 ∧
        pieceAt b2 28 = some ⟨.pawn, true⟩ ∧ pieceAt b2 12 = none ∧
        b2.turnWhite = false :=
  ⟨rfl, rfl, rfl,
   (renderBoardHtml fenAfterE4 "white").getD "", rfl, rfl,
   (parseFen fenAfterE4).getD ⟨[], true, false, false, false, false, none, 0, 1⟩,
   rfl, rfl, rfl, rfl⟩

/-! Lemmas linking the current position and the position store, used
for the commit-before-broadcast claim. -/

theorem latestPair_mem {l : List (Nat × String)} {x : Nat × String}
    (h : latestPair l = some x) : x ∈ l := by
  induction l with
  | nil => cases h
  | cons a rest ih =>
    unfold latestPair at h
    cases hr : latestPair rest with
    | none =>
      rw [hr] at h
      dsimp only at h
      cases h
      exact List.mem_cons_self _ _
    | some y =>
      rw [hr] at h
      dsimp only at h
      by_cases hlt : a.1 < y.1
      · rw [if_pos hlt] at h
        cases h
        exact List.mem_cons_of_mem _ (ih hr)
      · rw [if_neg hlt] at h
        cases h
        exact List.mem_cons_self _ _

/-- Whatever `get_current_fen` returns is either the FEN of a position
row joined to one of the game's moves, or the canonical start
position. -/
theorem currentFen_durable (db : DB) (gid : String) :
    (∃ m, m ∈ movesOf db gid ∧
      (findPosById db m.position_id).map PosRec.fen = some (currentFen db gid)) ∨
    currentFen db gid = STARTING_FEN := by
  unfold currentFen
  cases hl : latestPair (joinedMoves db gid) with
  | none => exact Or.inr rfl
  | some nf =>
    left
    have hmem := latestPair_mem hl
    obtain ⟨m, hm, hjm⟩ := List.mem_filterMap.mp hmem
    refine ⟨m, hm, ?_⟩
    cases hfp : findPosById db m.position_id with
    | none => rw [hfp] at hjm; cases hjm
    | some p =>
      rw [hfp] at hjm
      cases Option.some.inj hjm
      rfl

theorem find_by_id_of_nodup :
    ∀ (l : List PosRec), (l.map PosRec.id).Nodup → ∀ p ∈ l,
      l.find? (fun q => q.id = p.id) = some p := by
  intro l
  induction l with
  | nil => intro _ p hp; exact absurd hp (List.not_mem_nil p)
  | cons a rest ih =>
    intro hnd p hp
    have hnd2 : a.id ∉ rest.map PosRec.id ∧ (rest.map PosRec.id).Nodup := by
      rw [List.map_cons] at hnd
      exact List.nodup_cons.mp hnd
    by_cases ha : a.id = p.id
    · have hpa : p = a := by
        rcases List.mem_cons.mp hp with h | h
        · exact h
        · exact absurd (ha ▸ List.mem_map_of_mem PosRec.id h) hnd2.1
      subst hpa
      simp [List.find?_cons, ha]
    · have hprest : p ∈ rest := by
        rcases List.mem_cons.mp hp with h | h
        · exact absurd (h ▸ rfl) ha
        · exact h
      have hda : (decide (a.id = p.id)) = false := decide_eq_false ha
      simp only [List.find?_cons, hda]
      exact ih hnd2.2 p hprest

/-- The row returned by `Position.get_or_create` is found by its id in
the updated store and carries the requested FEN. -/
theorem getOrCreatePos_spec (db : DB) (fen freshPos : String)
    (hnodup : (db.positions.map PosRec.id).Nodup)
    (hfresh : freshPos ∉ db.positions.map PosRec.id) :
    findPosById (getOrCreatePos db fen freshPos).2
      (getOrCreatePos db fen freshPos).1.id =
      some (getOrCreatePos db fen freshPos).1 ∧
    (getOrCreatePos db fen freshPos).1.fen = fen := by
  unfold getOrCreatePos findPosById
  cases hf : db.positions.find? (fun p => p.fen = fen) with
  | some p =>
    dsimp only
    constructor
    · exact find_by_id_of_nodup db.positions hnodup p (List.mem_of_find?_eq_some hf)
    · have := List.find?_some hf
      simpa using this
  | none =>
    dsimp only
    constructor
    · rw [List.find?_append]
      have hnone : db.positions.find? (fun q => q.id = freshPos) = none := by
        rw [List.find?_eq_none]
        intro x hx hq
        apply hfresh
        have hxid : x.id = freshPos := by simpa using hq
        rw [← hxid]
        exact List.mem_map_of_mem PosRec.id hx
      rw [hnone]
      simp [List.find?_cons]
    · rfl

theorem recordMove_positions (db : DB) (gid uci nf freshPos : String) :
    (recordMove db gid uci nf freshPos).positions =
      (getOrCreatePos db nf freshPos).2.positions := by
  by_cases h : (movesOf (getOrCreatePos db nf freshPos).2 gid).length = 0
  · simp [recordMove, h]
  · simp [recordMove, h]

theorem completeGame_moves (db : DB) (gid : String) (w o : Option String) :
    (completeGame db gid w o).moves = db.moves := rfl

theorem completeGame_positions (db : DB) (gid : String) (w o : Option String) :
    (completeGame db gid w o).positions = db.positions := rfl

/-- The move row appended by `record_move` resolves, in the updated
store, to a position row holding the new FEN. -/
theorem recordMove_new_row_durable (db : DB) (gid uci nf freshPos : String)
    (hnodup : (db.positions.map PosRec.id).Nodup)
    (hfresh : freshPos ∉ db.positions.map PosRec.id) :
    ∃ m, m ∈ movesOf (recordMove db gid uci nf freshPos) gid ∧
      (findPosById (recordMove db gid uci nf freshPos) m.position_id).map
        PosRec.fen = some nf := by
  obtain ⟨hfind, hfen⟩ := getOrCreatePos_spec db nf freshPos hnodup hfresh
  refine ⟨⟨gid, (getOrCreatePos db nf freshPos).1.id,
    (movesOf db gid).length + 1, uci⟩, ?_, ?_⟩
  · rw [movesOf_recordMove]
    exact List.mem_append_right _ (List.mem_cons_self _ _)
  · have hpos : findPosById (recordMove db gid uci nf freshPos)
        (getOrCreatePos db nf freshPos).1.id =
        some (getOrCreatePos db nf freshPos).1 := by
      unfold findPosById
      rw [recordMove_positions]
      exact hfind
    rw [hpos, Option.map_some', hfen]

/-- C2: in every run of the move-submission pipeline whose trace
contains a broadcast, a commit occurs strictly earlier in the trace;
the committed database is exactly the database the pipeline leaves
behind, and the broadcast payload is the rendering of a position that
is durable in that committed database (the FEN of a position row
joined to one of the game's moves, or the canonical start position in
the resignation-before-any-move case). -/
theorem c2_commit_strictly_before_broadcast (db : DB) (gid uid uci : String)
    (resign : Bool) (freshPos : String)
    (hnodup : (db.positions.map PosRec.id).Nodup)
    (hfresh : freshPos ∉ db.positions.map PosRec.id)
    (j : Nat)
    (hj : ∃ k p, (makeMovePipeline db gid uid uci resign freshPos).trace.get? j =
      some (.broadcast k p)) :
    ∃ i, i < j ∧ ∃ db2,
      (makeMovePipeline db gid uid uci resign freshPos).trace.get? i =
        some (.commit db2) ∧
      (makeMovePipeline db gid uid uci resign freshPos).db = db2 ∧
      ∀ k p, (makeMovePipeline db gid uid uci resign freshPos).trace.get? j =
          some (.broadcast k p) →
        k = "game-update-" ++ gid ∧
        ∃ f, renderBoardHtml f "white" = some p ∧
          ((∃ m, m ∈ movesOf db2 gid ∧
            (findPosById db2 m.position_id).map PosRec.fen = some f) ∨
           f = STARTING_FEN) := by
  cases hfg : findGame db gid with
  | none =>
    obtain ⟨k, p, hjj⟩ := hj
    unfold makeMovePipeline at hjj
    rw [hfg] at hjj
    rcases j with _ | j <;> simp at hjj
  | some game =>
    unfold makeMovePipeline at hj ⊢
    rw [hfg] at hj ⊢
    dsimp only at hj ⊢
    by_cases hst : game.status = "complete"
    · rw [if_pos hst] at hj ⊢
      obtain ⟨k, p, hjj⟩ := hj
      rcases j with _ | j <;> simp at hjj
    · rw [if_neg hst] at hj ⊢
      cases hgt : getTurn (currentFen db gid) with
      | none =>
        rw [hgt] at hj
        obtain ⟨k, p, hjj⟩ := hj
        rcases j with _ | j <;> simp at hjj
      | some turn =>
        rw [hgt] at hj
        dsimp only at hj ⊢
        by_cases h403a : turn = "white" ∧ pyStr game.white_player_id ≠ uid
        · rw [if_pos h403a] at hj ⊢
          obtain ⟨k, p, hjj⟩ := hj
          rcases j with _ | j <;> simp at hjj
        · rw [if_neg h403a] at hj ⊢
          by_cases h403b : turn = "black" ∧ pyStr game.black_player_id ≠ uid
          · rw [if_pos h403b] at hj ⊢
            obtain ⟨k, p, hjj⟩ := hj
            rcases j with _ | j <;> simp at hjj
          · rw [if_neg h403b] at hj ⊢
            cases hres : resign with
            | true =>
              rw [hres] at hj
              rw [if_pos rfl] at hj ⊢
              cases hrd : renderBoardHtml (currentFen db gid) "white" with
              | none =>
                rw [hrd] at hj
                obtain ⟨k, p, hjj⟩ := hj
                rcases j with _ | _ | j <;> simp at hjj
              | some html =>
                rw [hrd] at hj
                obtain ⟨k, p, hjj⟩ := hj
                rcases j with _ | _ | j
                · simp at hjj
                · refine ⟨0, Nat.zero_lt_one, _, rfl, rfl, ?_⟩
                  intro k2 p2 h2
                  have h2 := Option.some.inj h2
                  cases h2
                  refine ⟨rfl, currentFen db gid, hrd, ?_⟩
                  rcases currentFen_durable db gid with ⟨m, hm, hf⟩ | hstart
                  · exact Or.inl ⟨m, hm, hf⟩
                  · exact Or.inr hstart
                · simp at hjj
            | false =>
              rw [hres] at hj
              simp only [Bool.false_eq_true, if_false] at hj ⊢
              cases hsvc : svcMakeMove (currentFen db gid) uci with
              | error e =>
                rw [hsvc] at hj
                obtain ⟨k, p, hjj⟩ := hj
                rcases j with _ | _ | j <;> simp at hjj
              | ok result =>
                rw [hsvc] at hj
                dsimp only at hj ⊢
                by_cases hsucc : result.success = false
                · rw [if_pos hsucc] at hj ⊢
                  obtain ⟨k, p, hjj⟩ := hj
                  rcases j with _ | _ | j <;> simp at hjj
                · rw [if_neg hsucc] at hj ⊢
                  cases hrd : renderBoardHtml result.new_fen "white" with
                  | none =>
                    rw [hrd] at hj
                    obtain ⟨k, p, hjj⟩ := hj
                    rcases j with _ | _ | _ | j <;> simp at hjj
                  | some html =>
                    rw [hrd] at hj
                    obtain ⟨k, p, hjj⟩ := hj
                    rcases j with _ | _ | _ | j
                    · simp at hjj
                    · simp at hjj
                    · refine ⟨1, by omega, _, rfl, rfl, ?_⟩
                      intro k2 p2 h2
                      have h2 := Option.some.inj h2
                      cases h2
                      refine ⟨rfl, result.new_fen, hrd, Or.inl ?_⟩
                      obtain ⟨m, hm, hf⟩ :=
                        recordMove_new_row_durable db gid uci result.new_fen
                          freshPos hnodup hfresh
                      cases hgo : result.is_game_over with
                      | true =>
                        simp only [if_true]
                        refine ⟨m, ?_, ?_⟩
                        · rw [show movesOf (completeGame
                            (recordMove db gid uci result.new_fen freshPos) gid
                            result.winner result.outcome) gid =
                            movesOf (recordMove db gid uci result.new_fen freshPos)
                              gid from rfl]
                          exact hm
                        · rw [show findPosById (completeGame
                            (recordMove db gid uci result.new_fen freshPos) gid
                            result.winner result.outcome) m.position_id =
                            findPosById
                              (recordMove db gid uci result.new_fen freshPos)
                              m.position_id from rfl]
                          exact hf
                      | false =>
                        simp only [Bool.false_eq_true, if_false]
                        exact ⟨m, hm, hf⟩
                    · simp at hjj

/-- C2 witness: the first move of a concrete game; the broadcast sits
at trace index 2, the commit strictly before it at index 1, and the
broadcast payload renders the durably recorded position. -/
theorem c2_commit_strictly_before_broadcast_witness :
    (dbWhiteAssigned.positions.map PosRec.id).Nodup ∧
    "p0" ∉ dbWhiteAssigned.positions.map PosRec.id ∧
    (∃ k p, (makeMovePipeline dbWhiteAssigned "g1" "u1" "e2e4" false "p0").trace.get? 2 =
      some (.broadcast k p)) ∧
    ∃ i, i < 2 ∧ ∃ db2,
      (makeMovePipeline dbWhiteAssigned "g1" "u1" "e2e4" false "p0").trace.get? i =
        some (.commit db2) ∧
      (makeMovePipeline dbWhiteAssigned "g1" "u1" "e2e4" false "p0").db = db2 ∧
      ∀ k p, (makeMovePipeline dbWhiteAssigned "g1" "u1" "e2e4" false "p0").trace.get? 2 =
          some (.broadcast k p) →
        k = "game-update-" ++ "g1" ∧
        ∃ f, renderBoardHtml f "white" = some p ∧
          ((∃ m, m ∈ movesOf db2 "g1" ∧
            (findPosById db2 m.position_id).map PosRec.fen = some f) ∨
           f = STARTING_FEN) :=
  ⟨by decide, by decide, ⟨_, _, rfl⟩,
   c2_commit_strictly_before_broadcast dbWhiteAssigned "g1" "u1" "e2e4" false "p0"
     (by decide) (by decide) 2 ⟨_, _, rfl⟩⟩

/-! Lemmas for the streaming-payload claim. -/

/-- Whatever `render_board_html` returns opens with the board table
markup — it is an HTML document fragment, not a FEN string. -/
theorem renderBoardHtml_head (fen persp h : String)
    (hr : renderBoardHtml fen persp = some h) : h.data.head? = some '<' := by
  unfold renderBoardHtml at hr
  cases hp : parseFen fen with
  | none => rw [hp] at hr; cases hr
  | some b =>
    rw [hp, Option.map_some'] at hr
    have hh := Option.some.inj hr
    rw [← hh, String.data_append]
    rfl

theorem string_ne_of_head (s t : String) (c d : Char)
    (hs : s.data.head? = some c) (ht : t.data.head? = some d) (hcd : c ≠ d) :
    s ≠ t := by
  intro h
  rw [h, ht] at hs
  exact hcd (Option.some.inj hs).symm

/-- C5 divergence (code bug): after the first move of a concrete game,
the event enqueued for subscribers carries kind `game-update-g1` and a
payload that is the pre-rendered white-perspective HTML of the new
position — not the raw position.  That kind does not start with
`fen-update-`, so the viewer session's re-render branch never fires:
a session pinned to the black perspective yields the white-perspective
HTML verbatim.  The payload provably differs from the raw FEN. -/
theorem c5_divergence_prerendered_html_on_queue :
    ∃ html,
      (makeMovePipeline dbWhiteAssigned "g1" "u1" "e2e4" false "p0").trace.get? 2 =
        some (.broadcast "game-update-g1" html) ∧
      renderBoardHtml fenAfterE4 "white" = some html ∧
      pyStartsWith "game-update-g1" "fen-update-" = false ∧
      sessionStep (some "black") "g1" ("game-update-g1", html) =
        .ok ("game-update-g1", html) ∧
      html ≠ fenAfterE4 ∧
      ∃ ch, (broadcastToGame (fun _ => false)
          ⟨[("g1", ⟨[0], fun _ => [], 1⟩)]⟩ "g1" html).channels = [("g1", ch)] ∧
        ch.queues 0 = [("game-update-g1", html)] := by
  refine ⟨(renderBoardHtml fenAfterE4 "white").getD "", rfl, rfl, rfl, rfl,
    ?_, _, rfl, rfl⟩
  exact string_ne_of_head _ _ '<' 'r'
    (renderBoardHtml_head fenAfterE4 "white" _ rfl) rfl (by decide)

end PyChess
